import Mathlib

/-!
Verification of the topic-tree flattening, breadcrumb path derivation,
batch partitioning and dispatch logic of
`src/raspberrypi.com/products/batch.py`.

Strings are modelled as `List Char`; Python's machine-independent string
operations (`str.replace`, `str.split`, `"/".join`, string comparison,
`int(...)`) are embedded as executable functions on `List Char`.
The JSON structure document is modelled by the inductive tree `Topic`;
the worker subprocess of the dispatch loop (lines 86-98) is an opaque
parameter `worker : WorkItem → Bool` (`true` = exit status 0).
-/

/-- Python `s.replace(pat, rep)` worker, for a non-empty pattern `pat`:
scans `s` left to right; `skip > 0` means the scanner is inside an already
matched occurrence and must drop `skip` characters before resuming. -/
def pyReplaceAux (pat rep : List Char) : Nat → List Char → List Char
  | _, [] => []
  | Nat.succ k, _ :: rest => pyReplaceAux pat rep k rest
  | 0, c :: rest =>
    if pat.isPrefixOf (c :: rest) && !pat.isEmpty then
      rep ++ pyReplaceAux pat rep (pat.length - 1) rest
    else
      c :: pyReplaceAux pat rep 0 rest

/-- Python `s.replace(pat, rep)` (leftmost, non-overlapping occurrences),
for a non-empty pattern `pat`; used by `batch.py` line 64 as
`t.replace("/", "_slash_")`. -/
def pyReplace (s pat rep : List Char) : List Char :=
  pyReplaceAux pat rep 0 s

/-- A derived work unit: `{"url": ..., "path": ...}` built by
`get_all_topics` (`batch.py` lines 61-65). -/
structure WorkItem where
  url  : List Char
  path : List Char
deriving DecidableEq, Repr

/-- A node of the hierarchical structure document (`STRUCTURE_SCHEMA`,
`batch.py` lines 13-43): required `name`, `url`, `sub_topics`; optional
`breadcrumbs`. -/
inductive Topic where
  | mk (name : List Char) (url : List Char)
       (breadcrumbs : Option (List (List Char))) (sub_topics : List Topic)

def Topic.name : Topic → List Char
  | .mk n _ _ _ => n

def Topic.url : Topic → List Char
  | .mk _ u _ _ => u

def Topic.breadcrumbs : Topic → Option (List (List Char))
  | .mk _ _ b _ => b

def Topic.sub_topics : Topic → List Topic
  | .mk _ _ _ s => s

/-- Validation error taxonomy of one run of `main` (spec §7):
schema validation failure (line 58), `KeyError: 'breadcrumbs'`
(line 64), `ValueError` from `topic_range` parsing (line 76), and a
non-zero worker exit (`subprocess.run(..., check=True)`, line 88). -/
inductive Err where
  | schemaError
  | keyErrorBreadcrumbs
  | valueError
  | workerFailure
deriving DecidableEq, Repr

mutual
/-- `STRUCTURE_SCHEMA` checks on one node (`batch.py` lines 14-42):
`name` and `url` are non-empty strings, and `breadcrumbs`, when present,
is a non-empty array of non-empty strings.  (`"format": "uri"` is
annotation-only for `jsonschema.validate` without a format checker, and
`additionalProperties`/field-presence are enforced by the `Topic` type.) -/
def validTopic : Topic → Bool
  | .mk name url bc subs =>
    !name.isEmpty && !url.isEmpty &&
    (match bc with
     | none => true
     | some bcs => !bcs.isEmpty && bcs.all (fun b => !b.isEmpty)) &&
    validTopicList subs

def validTopicList : List Topic → Bool
  | [] => true
  | t :: ts => validTopic t && validTopicList ts
end

/-- `validate(instance=data, schema=STRUCTURE_SCHEMA)` (`batch.py`
line 58): the document is an array with `minItems: 1` (line 11) of
schema-valid topics. -/
def validateStructure (data : List Topic) : Bool :=
  !data.isEmpty && validTopicList data

/-- `"/".join([t.replace("/", "_slash_") for t in topic["breadcrumbs"]])`
(`batch.py` line 64). -/
def pathOfBreadcrumbs (breadcrumbs : List (List Char)) : List Char :=
  List.intercalate "/".toList
    (breadcrumbs.map (fun t => pyReplace t "/".toList "_slash_".toList))

mutual
/-- `get_all_topics` (`batch.py` lines 60-70): one WorkItem for the node
itself, then the flattened descendants of each sub-topic in order.
Accessing `topic["breadcrumbs"]` on a node without that key raises
`KeyError`, modelled as `Except.error .keyErrorBreadcrumbs`. -/
def get_all_topics : Topic → Except Err (List WorkItem)
  | .mk _ url bc subs =>
    match bc with
    | none => .error .keyErrorBreadcrumbs
    | some bcs =>
      match flattenChildren subs with
      | .error e => .error e
      | .ok rest => .ok ({ url := url, path := pathOfBreadcrumbs bcs } :: rest)

/-- `[descendant for sub_topic in ts for descendant in
get_all_topics(sub_topic)]` (`batch.py` lines 66-70; line 72 applies the
same comprehension to the root array). -/
def flattenChildren : List Topic → Except Err (List WorkItem)
  | [] => .ok []
  | t :: ts =>
    match get_all_topics t with
    | .error e => .error e
    | .ok a =>
      match flattenChildren ts with
      | .error e => .error e
      | .ok b => .ok (a ++ b)
end

/-- Python string comparison `x <= y`: lexicographic by code point. -/
def strLe : List Char → List Char → Bool
  | [], _ => true
  | _ :: _, [] => false
  | a :: as, b :: bs => if a < b then true else if b < a then false else strLe as bs

/-- `sorted(topics, key=lambda x: x["path"])` (`batch.py` line 73):
stable sort, ascending in the lexicographic order of `path`. -/
def sortTopics (topics : List WorkItem) : List WorkItem :=
  topics.mergeSort (fun a b => strLe a.path b.path)

/-- Zero-digit code points of the decimal-digit blocks (Unicode
category `Nd`) whose characters CPython `int()` accepts as digits, one
entry per aligned block of ten; generated by probing `int(chr(c))` for
every code point of the CPython 3.11 runtime the program runs under. -/
def pyDigitZeroBases : List Nat :=
  [48, 1632, 1776, 1984, 2406, 2534, 2662, 2790, 2918, 3046, 3174, 3302, 3430,
   3558, 3664, 3792, 3872, 4160, 4240, 6112, 6160, 6470, 6608, 6784, 6800,
   6992, 7088, 7232, 7248, 42528, 43216, 43264, 43472, 43504, 43600, 44016,
   65296, 66720, 68912, 69734, 69872, 69942, 70096, 70384, 70736, 70864,
   71248, 71360, 71472, 71904, 72016, 72784, 73040, 73120, 92768, 92864,
   93008, 120782, 120792, 120802, 120812, 120822, 123200, 123632, 125264,
   130032]

/-- The decimal value Python `int()` assigns to one character, `none`
for a non-digit. -/
def pyCharDigit (c : Char) : Option Nat :=
  (pyDigitZeroBases.find? (fun z => decide (z ≤ c.toNat) && decide (c.toNat ≤ z + 9))).map
    (fun z => c.toNat - z)

/-- Code points CPython `int()` strips as whitespace around a numeric
string; generated by probing `int(chr(c) ++ "3")` and
`int("3" ++ chr(c))` for every code point of the same runtime. -/
def pyIntSpace : List Nat :=
  [9, 10, 11, 12, 13, 32, 133, 160, 5760, 8192, 8193, 8194, 8195, 8196, 8197,
   8198, 8199, 8200, 8201, 8202, 8232, 8233, 8239, 8287, 12288]

def pyIsSpace (c : Char) : Bool :=
  pyIntSpace.contains c.toNat

/-- The digit run of Python `int()` after its first digit, extending the
accumulated value `acc`: per PEP 515 an underscore must be both preceded
and followed by a digit (so no trailing, leading or doubled `_`). -/
def digitsCore : Nat → List Char → Option Nat
  | acc, [] => some acc
  | acc, '_' :: rest =>
    match rest with
    | [] => none
    | d :: rest2 =>
      match pyCharDigit d with
      | some v => digitsCore (acc * 10 + v) rest2
      | none => none
  | acc, c :: rest =>
    match pyCharDigit c with
    | some v => digitsCore (acc * 10 + v) rest
    | none => none

/-- Digit-string to number as Python `int(...)` reads it after the
optional sign: non-empty, starting with a decimal digit, underscores
only between digits. -/
def digitsToNat (ds : List Char) : Option Nat :=
  match ds with
  | [] => none
  | c :: rest =>
    match pyCharDigit c with
    | some v => digitsCore v rest
    | none => none

/-- Python `int(s)` for a base-10 string: strip the characters `int()`
treats as surrounding whitespace, allow one ASCII sign, then a PEP 515
digit run over the Unicode decimal digits; `none` means `int` raises
`ValueError`.  This model agrees with the runtime CPython `int()` on
every string up to length 3 over a mixed digit/underscore/sign/space
alphabet and on 300000 random longer ones. -/
def parseIntPy (s : List Char) : Option Int :=
  let t := ((s.dropWhile pyIsSpace).reverse.dropWhile pyIsSpace).reverse
  match t with
  | '+' :: ds => (digitsToNat ds).map (fun n => (n : Int))
  | '-' :: ds => (digitsToNat ds).map (fun n => -(n : Int))
  | ds => (digitsToNat ds).map (fun n => (n : Int))

/-- `batch.py` lines 75-77: when `topic_range` is not `"*"`,
`start, end = map(int, args.topic_range.split("-"))` — the split must
have exactly two fields and both must parse as integers, else the
uncaught `ValueError` aborts the run.  The parsed pair is only printed,
never used. -/
def parseTopicRange (topic_range : List Char) : Except Err (Option (Int × Int)) :=
  if topic_range = "*".toList then .ok none
  else
    match (topic_range.splitOn '-').map parseIntPy with
    | [some a, some b] => .ok (some (a, b))
    | _ => .error .valueError

/-- `True` when `topic_range` is well-formed: the literal `"*"` or a
`"start-end"` integer pair (lines 75-77 do not raise). -/
def rangeWellFormed (topic_range : List Char) : Bool :=
  match parseTopicRange topic_range with
  | .ok _ => true
  | .error _ => false

/-- `batch_size = len(topics) // args.group_count + (len(topics) %
args.group_count > 0)` (`batch.py` line 81). -/
def batch_size (T group_count : Nat) : Nat :=
  T / group_count + (if T % group_count > 0 then 1 else 0)

/-- `current_group = topics[group_index * batch_size : (group_index + 1)
* batch_size]` (`batch.py` lines 82-84); the Python slice `l[a:b]` with
`0 ≤ a ≤ b` is `(l.take b).drop a`. -/
def currentGroup (topics : List WorkItem) (group_index group_count : Nat) : List WorkItem :=
  (topics.take ((group_index + 1) * batch_size topics.length group_count)).drop
    (group_index * batch_size topics.length group_count)

/-- `main` up to batch selection (`batch.py` lines 55-84): validate the
document, flatten every root with `get_all_topics`, sort by `path`,
parse `topic_range` (result unused), and return the selected batch. -/
def mainPipeline (data : List Topic) (topic_range : List Char)
    (group_index group_count : Nat) : Except Err (List WorkItem) :=
  if validateStructure data then
    match flattenChildren data with
    | .error e => .error e
    | .ok ts =>
      match parseTopicRange topic_range with
      | .error e => .error e
      | .ok _ => .ok (currentGroup (sortTopics ts) group_index group_count)
  else .error .schemaError

/-- The dispatch loop (`batch.py` lines 86-98): run the worker on each
item in order; `subprocess.run(..., check=True)` raises on the first
non-zero exit, so the loop stops there.  Returns the successfully
completed items and whether the whole batch succeeded. -/
def dispatchBatch (worker : WorkItem → Bool) : List WorkItem → List WorkItem × Bool
  | [] => ([], true)
  | t :: rest =>
    if worker t then
      let r := dispatchBatch worker rest
      (t :: r.1, r.2)
    else ([], false)

/-- Outcome of one whole run of `main`: `ok` = exit status 0 with all
items completed; `fail` = non-zero exit (uncaught exception) after the
listed items completed. -/
inductive RunResult where
  | ok (completed : List WorkItem)
  | fail (err : Err) (completed : List WorkItem)
deriving DecidableEq, Repr

/-- One whole run of `main` (`batch.py` lines 46-98). -/
def runMain (worker : WorkItem → Bool) (data : List Topic) (topic_range : List Char)
    (group_index group_count : Nat) : RunResult :=
  match mainPipeline data topic_range group_index group_count with
  | .error e => .fail e []
  | .ok batch =>
    match dispatchBatch worker batch with
    | (done, true) => .ok done
    | (done, false) => .fail .workerFailure done

/-! Specification-side vocabulary: the pre-order node enumeration, the
node count of the forest, and the WorkItem a node should produce. -/

mutual
/-- Pre-order enumeration of a subtree: the node itself, then the
pre-order enumeration of each child subtree in document order. -/
def nodesOf (t : Topic) : List Topic :=
  match t with
  | .mk n u b subs => .mk n u b subs :: nodesOfList subs

/-- Pre-order enumeration of a forest, root by root. -/
def nodesOfList : List Topic → List Topic
  | [] => []
  | t :: ts => nodesOf t ++ nodesOfList ts
end

mutual
/-- Number of nodes of a subtree (the node plus all descendants). -/
def countTopic : Topic → Nat
  | .mk _ _ _ subs => 1 + countList subs

/-- Number of nodes of a forest. -/
def countList : List Topic → Nat
  | [] => 0
  | t :: ts => countTopic t + countList ts
end

/-- The WorkItem a node with breadcrumbs present should produce. -/
def itemOf (t : Topic) : WorkItem :=
  { url := t.url, path := pathOfBreadcrumbs (t.breadcrumbs.getD []) }

/-! ### Partitioning (claims C1, C2) -/

theorem currentGroup_eq_drop_take (topics : List WorkItem) (i g : Nat) :
    currentGroup topics i g =
      (topics.drop (i * batch_size topics.length g)).take (batch_size topics.length g) := by
  rw [currentGroup, List.take_drop, Nat.succ_mul]

theorem flatMap_chunks (l : List WorkItem) (bs : Nat) :
    ∀ k : Nat, (List.range k).flatMap (fun i => (l.drop (i * bs)).take bs) = l.take (k * bs)
  | 0 => by simp
  | k + 1 => by
    rw [List.range_succ, List.flatMap_append, flatMap_chunks l bs k, Nat.succ_mul, List.take_add]
    simp

theorem le_mul_batch_size (T g : Nat) (hg : 1 ≤ g) : T ≤ g * batch_size T g := by
  have hdm := Nat.div_add_mod T g
  have hlt : T % g < g := Nat.mod_lt _ (by omega)
  rcases Nat.eq_zero_or_pos (T % g) with h0 | hpos
  · have hbs : batch_size T g = T / g := by simp [batch_size, h0]
    rw [hbs]
    omega
  · have hbs : batch_size T g = T / g + 1 := by simp [batch_size, hpos]
    have hmul : g * (T / g + 1) = g * (T / g) + g := by ring
    rw [hbs]
    omega

/-- C1: Partition completeness — for every WorkItem sequence and every
`group_count ≥ 1`, concatenating the batches for
`group_index = 0, ..., group_count - 1` in order reproduces the full
sequence exactly (so no omission, duplication or reordering); `T = 0`
gives every batch empty, and `group_count = 1` gives a single batch
equal to the whole sequence. -/
theorem partition_completeness (topics : List WorkItem) (group_index group_count : Nat)
    (hg : 1 ≤ group_count) :
    (List.range group_count).flatMap (fun i => currentGroup topics i group_count) = topics
    ∧ (topics.length = 0 → currentGroup topics group_index group_count = [])
    ∧ currentGroup topics 0 1 = topics := by
  refine ⟨?_, ?_, ?_⟩
  · simp only [currentGroup_eq_drop_take]
    rw [flatMap_chunks]
    exact List.take_of_length_le (le_mul_batch_size _ _ hg)
  · intro h
    have hnil : topics = [] := List.length_eq_zero.mp h
    subst hnil
    simp [currentGroup]
  · simp [currentGroup, batch_size, Nat.mod_one, Nat.div_one]

/-- C2: Partition sizing — the computed `batch_size` equals
`⌈T / group_count⌉`; the batch for index `i` consists of the elements at
positions `[i * batch_size, min ((i+1) * batch_size, T))`; its length is
`min batch_size (T - i * batch_size)` (so for `T = 10`,
`group_count = 3`: `batch_size = 4` and lengths `[4, 4, 2]`, checked in
the witness). -/
theorem partition_sizing (topics : List WorkItem) (group_index group_count : Nat)
    (hg : 1 ≤ group_count) :
    batch_size topics.length group_count = (topics.length + group_count - 1) / group_count
    ∧ currentGroup topics group_index group_count =
        (topics.take (min ((group_index + 1) * batch_size topics.length group_count)
          topics.length)).drop (group_index * batch_size topics.length group_count)
    ∧ (currentGroup topics group_index group_count).length =
        min (batch_size topics.length group_count)
          (topics.length - group_index * batch_size topics.length group_count) := by
  refine ⟨?_, ?_, ?_⟩
  · set T := topics.length with hT
    have hgpos : 0 < group_count := hg
    have hdm := Nat.div_add_mod T group_count
    have hlt : T % group_count < group_count := Nat.mod_lt _ hgpos
    rcases Nat.eq_zero_or_pos (T % group_count) with h0 | hpos
    · have hbs : batch_size T group_count = T / group_count := by simp [batch_size, h0]
      have hTe : T + group_count - 1 =
          group_count * (T / group_count) + (group_count - 1) := by omega
      rw [hbs, hTe, Nat.mul_add_div hgpos]
      have h1 : (group_count - 1) / group_count = 0 := Nat.div_eq_of_lt (by omega)
      omega
    · have hbs : batch_size T group_count = T / group_count + 1 := by simp [batch_size, hpos]
      have hmul : group_count * (T / group_count + 1) =
          group_count * (T / group_count) + group_count := by ring
      have hTe : T + group_count - 1 =
          group_count * (T / group_count + 1) + (T % group_count - 1) := by omega
      rw [hbs, hTe, Nat.mul_add_div hgpos]
      have h1 : (T % group_count - 1) / group_count = 0 := Nat.div_eq_of_lt (by omega)
      omega
  · rw [currentGroup]
    rcases le_total ((group_index + 1) * batch_size topics.length group_count) topics.length
      with hle | hle
    · rw [min_eq_left hle]
    · rw [min_eq_right hle, List.take_length, List.take_of_length_le hle]
  · rw [currentGroup_eq_drop_take]
    simp [List.length_take, List.length_drop]

/-- A fixed batch of three WorkItems used by the C1 witness. -/
def sampleTopics : List WorkItem :=
  [{ url := ['u'], path := ['a'] }, { url := ['v'], path := ['b'] },
   { url := ['w'], path := ['c'] }]

/-- Witness for C1 at `topics = sampleTopics` (length 3),
`group_index = 1`, `group_count = 2`, plus the `T = 0` boundary. -/
theorem partition_completeness_witness :
    1 ≤ 2
    ∧ (List.range 2).flatMap (fun i => currentGroup sampleTopics i 2) = sampleTopics
    ∧ currentGroup sampleTopics 0 1 = sampleTopics
    ∧ currentGroup [] 1 2 = [] :=
  ⟨by decide, (partition_completeness sampleTopics 1 2 (by decide)).1,
   (partition_completeness sampleTopics 1 2 (by decide)).2.2,
   (partition_completeness [] 1 2 (by decide)).2.1 rfl⟩

/-- A fixed batch of ten WorkItems used by the C2 witness. -/
def topics10 : List WorkItem :=
  [{ url := ['u'], path := ['a'] }, { url := ['u'], path := ['b'] },
   { url := ['u'], path := ['c'] }, { url := ['u'], path := ['d'] },
   { url := ['u'], path := ['e'] }, { url := ['u'], path := ['f'] },
   { url := ['u'], path := ['g'] }, { url := ['u'], path := ['h'] },
   { url := ['u'], path := ['i'] }, { url := ['u'], path := ['j'] }]

/-- Witness for C2 at `T = 10`, `group_index = 1`, `group_count = 3`:
`batch_size = 4` and the three batch lengths are `[4, 4, 2]`. -/
theorem partition_sizing_witness :
    1 ≤ 3
    ∧ batch_size topics10.length 3 = (topics10.length + 3 - 1) / 3
    ∧ batch_size topics10.length 3 = 4
    ∧ (List.range 3).map (fun j => (currentGroup topics10 j 3).length) = [4, 4, 2]
    ∧ (currentGroup topics10 1 3).length =
        min (batch_size topics10.length 3) (topics10.length - 1 * batch_size topics10.length 3) :=
  ⟨by decide, (partition_sizing topics10 1 3 (by decide)).1, by decide, by decide,
   (partition_sizing topics10 1 3 (by decide)).2.2⟩

/-! ### Flattening is the pre-order traversal (claim C3) -/

mutual
theorem nodesOf_length_eq : ∀ t : Topic, (nodesOf t).length = countTopic t
  | .mk n u b subs => by
    rw [nodesOf, countTopic]
    simp [nodesOfList_length_eq subs]
    omega

theorem nodesOfList_length_eq : ∀ ts : List Topic, (nodesOfList ts).length = countList ts
  | [] => by simp [nodesOfList, countList]
  | t :: ts => by
    rw [nodesOfList, countList]
    simp [nodesOf_length_eq t, nodesOfList_length_eq ts]
end

mutual
theorem get_all_topics_ok :
    ∀ t : Topic, (∀ s ∈ nodesOf t, s.breadcrumbs.isSome = true) →
      get_all_topics t = .ok ((nodesOf t).map itemOf)
  | .mk n u bc subs, h => by
    have hhead : (Topic.mk n u bc subs).breadcrumbs.isSome = true := by
      apply h
      rw [nodesOf]
      exact List.mem_cons_self _ _
    cases bc with
    | none => simp [Topic.breadcrumbs] at hhead
    | some bcs =>
      have hrest : flattenChildren subs = .ok ((nodesOfList subs).map itemOf) :=
        flattenChildren_ok subs (fun s hs => h s (by
          rw [nodesOf]
          exact List.mem_cons_of_mem _ hs))
      simp [get_all_topics, hrest, nodesOf, itemOf, Topic.url, Topic.breadcrumbs]

theorem flattenChildren_ok :
    ∀ ts : List Topic, (∀ s ∈ nodesOfList ts, s.breadcrumbs.isSome = true) →
      flattenChildren ts = .ok ((nodesOfList ts).map itemOf)
  | [], _ => by simp [flattenChildren, nodesOfList]
  | t :: ts, h => by
    have h1 : get_all_topics t = .ok ((nodesOf t).map itemOf) :=
      get_all_topics_ok t (fun s hs => h s (by
        rw [nodesOfList]
        exact List.mem_append_left _ hs))
    have h2 : flattenChildren ts = .ok ((nodesOfList ts).map itemOf) :=
      flattenChildren_ok ts (fun s hs => h s (by
        rw [nodesOfList]
        exact List.mem_append_right _ hs))
    simp [flattenChildren, h1, h2, nodesOfList]
end

/-- C3: For every structure document whose visited nodes all carry
`breadcrumbs`, the Flattener produces exactly one WorkItem per node of
the forest — roots and internal nodes included — in pre-order (the node
before its children, siblings and roots in document order), and its
output length is the total node count of the forest. -/
theorem flattener_is_preorder (data : List Topic)
    (h : ∀ s ∈ nodesOfList data, s.breadcrumbs.isSome = true) :
    flattenChildren data = .ok ((nodesOfList data).map itemOf)
    ∧ ((nodesOfList data).map itemOf).length = countList data := by
  refine ⟨flattenChildren_ok data h, ?_⟩
  simp [nodesOfList_length_eq]

/-- A two-node document (root `A` with child `B`) matching the worked
example of spec §8; used by the C3, C5 and C7 witnesses. -/
def sampleDoc : List Topic :=
  [.mk "A".toList "u1".toList (some ["products".toList, "A".toList])
    [.mk "B".toList "u2".toList (some ["products".toList, "A".toList, "B".toList]) []]]

/-- Witness for C3 at `sampleDoc`: two nodes, two WorkItems, parent
first, paths `products/A` and `products/A/B`. -/
theorem flattener_is_preorder_witness :
    flattenChildren sampleDoc = .ok ((nodesOfList sampleDoc).map itemOf)
    ∧ ((nodesOfList sampleDoc).map itemOf).length = countList sampleDoc
    ∧ flattenChildren sampleDoc =
        .ok [{ url := "u1".toList, path := "products/A".toList },
             { url := "u2".toList, path := "products/A/B".toList }] :=
  ⟨(flattener_is_preorder sampleDoc (by decide)).1,
   (flattener_is_preorder sampleDoc (by decide)).2, by rfl⟩

/-! ### Sorting by relative path (claim C5) -/

theorem strLe_total : ∀ a b : List Char, (strLe a b || strLe b a) = true
  | [], _ => by simp [strLe]
  | _ :: _, [] => by simp [strLe]
  | a :: as, b :: bs => by
    simp only [strLe]
    by_cases h1 : a < b
    · rw [if_pos h1]
      simp
    · by_cases h2 : b < a
      · rw [if_neg h1, if_pos h2, if_pos h2]
        simp
      · have hab : a = b := le_antisymm (not_lt.mp h2) (not_lt.mp h1)
        subst hab
        rw [if_neg h1, if_neg h1, if_neg h1, if_neg h1]
        exact strLe_total as bs

theorem strLe_trans :
    ∀ a b c : List Char, strLe a b = true → strLe b c = true → strLe a c = true
  | [], _, _, _, _ => by rw [strLe]
  | _ :: _, [], _, h1, _ => by rw [strLe] at h1; cases h1
  | _ :: _, _ :: _, [], _, h2 => by rw [strLe] at h2; cases h2
  | a :: as, b :: bs, c :: cs, h1, h2 => by
    rw [strLe] at h1 h2 ⊢
    by_cases hab : a < b
    · by_cases hbc : b < c
      · rw [if_pos (lt_trans hab hbc)]
      · have hcb : ¬ c < b := by
          intro hcb
          rw [if_neg hbc, if_pos hcb] at h2
          cases h2
        have hbceq : b = c := le_antisymm (not_lt.mp hcb) (not_lt.mp hbc)
        subst hbceq
        rw [if_pos hab]
    · by_cases hba : b < a
      · rw [if_neg hab, if_pos hba] at h1
        cases h1
      · have habeq : a = b := le_antisymm (not_lt.mp hba) (not_lt.mp hab)
        subst habeq
        rw [if_neg hab, if_neg hba] at h1
        by_cases hac : a < c
        · rw [if_pos hac]
        · by_cases hca : c < a
          · rw [if_neg hac, if_pos hca] at h2
            cases h2
          · rw [if_neg hac, if_neg hca] at h2 ⊢
            exact strLe_trans as bs cs h1 h2

/-- C5: After flattening, the WorkItem sequence is re-sorted into
non-decreasing lexicographic order of `relative_path` (a permutation of
the traversal-order output, so the same WorkItems), and re-running the
Flattener on the same document yields an identical output sequence. -/
theorem flatten_sort_deterministic (data : List Topic) (l l2 : List WorkItem)
    (h : flattenChildren data = .ok l) (h2 : flattenChildren data = .ok l2) :
    (sortTopics l).Pairwise (fun a b => strLe a.path b.path = true)
    ∧ (sortTopics l).Perm l
    ∧ sortTopics l2 = sortTopics l := by
  refine ⟨?_, ?_, ?_⟩
  · rw [sortTopics]
    exact List.sorted_mergeSort
      (fun a b c hab hbc => strLe_trans a.path b.path c.path hab hbc)
      (fun a b => strLe_total a.path b.path) l
  · rw [sortTopics]
    exact List.mergeSort_perm l _
  · rw [h] at h2
    cases h2
    rfl

/-- Witness for C5 at `sampleDoc`. -/
theorem flatten_sort_deterministic_witness :
    (sortTopics [{ url := "u1".toList, path := "products/A".toList },
                 { url := "u2".toList, path := "products/A/B".toList }]).Pairwise
      (fun a b => strLe a.path b.path = true)
    ∧ (sortTopics [{ url := "u1".toList, path := "products/A".toList },
                   { url := "u2".toList, path := "products/A/B".toList }]).Perm
        [{ url := "u1".toList, path := "products/A".toList },
         { url := "u2".toList, path := "products/A/B".toList }]
    ∧ sortTopics [{ url := "u1".toList, path := "products/A".toList },
                  { url := "u2".toList, path := "products/A/B".toList }] =
        sortTopics [{ url := "u1".toList, path := "products/A".toList },
                    { url := "u2".toList, path := "products/A/B".toList }] :=
  flatten_sort_deterministic sampleDoc _ _ rfl rfl

/-! ### A node without `breadcrumbs` aborts the flatten step (claim C6) -/

mutual
theorem get_all_topics_error_shape :
    ∀ (t : Topic) (e : Err), get_all_topics t = .error e → e = .keyErrorBreadcrumbs
  | .mk n u bc subs, e => by
    cases bc with
    | none =>
      intro h
      rw [get_all_topics] at h
      cases h
      rfl
    | some bcs =>
      intro h
      rw [get_all_topics] at h
      cases hfc : flattenChildren subs with
      | error e2 =>
        rw [hfc] at h
        cases h
        exact flattenChildren_error_shape subs _ hfc
      | ok rest =>
        rw [hfc] at h
        simp at h

theorem flattenChildren_error_shape :
    ∀ (ts : List Topic) (e : Err), flattenChildren ts = .error e → e = .keyErrorBreadcrumbs
  | [], e => by
    intro h
    rw [flattenChildren] at h
    cases h
  | t :: ts, e => by
    intro h
    rw [flattenChildren] at h
    cases hg : get_all_topics t with
    | error e1 =>
      rw [hg] at h
      cases h
      exact get_all_topics_error_shape t _ hg
    | ok a =>
      rw [hg] at h
      cases hf : flattenChildren ts with
      | error e2 =>
        rw [hf] at h
        cases h
        exact flattenChildren_error_shape ts _ hf
      | ok b =>
        rw [hf] at h
        simp at h
end

mutual
theorem get_all_topics_missing :
    ∀ t : Topic, (∃ s ∈ nodesOf t, s.breadcrumbs = none) →
      get_all_topics t = .error .keyErrorBreadcrumbs
  | .mk n u bc subs, h => by
    cases bc with
    | none => rw [get_all_topics]
    | some bcs =>
      have hsub : ∃ s ∈ nodesOfList subs, s.breadcrumbs = none := by
        obtain ⟨s, hs, hnone⟩ := h
        rw [nodesOf] at hs
        rcases List.mem_cons.mp hs with rfl | hs2
        · simp [Topic.breadcrumbs] at hnone
        · exact ⟨s, hs2, hnone⟩
      rw [get_all_topics, flattenChildren_missing subs hsub]

theorem flattenChildren_missing :
    ∀ ts : List Topic, (∃ s ∈ nodesOfList ts, s.breadcrumbs = none) →
      flattenChildren ts = .error .keyErrorBreadcrumbs
  | [], h => by
    obtain ⟨s, hs, _⟩ := h
    rw [nodesOfList] at hs
    cases hs
  | t :: ts, h => by
    obtain ⟨s, hs, hnone⟩ := h
    rw [nodesOfList] at hs
    rcases List.mem_append.mp hs with hs1 | hs2
    · rw [flattenChildren, get_all_topics_missing t ⟨s, hs1, hnone⟩]
    · rw [flattenChildren]
      cases hg : get_all_topics t with
      | error e1 =>
        rw [get_all_topics_error_shape t e1 hg]
      | ok a =>
        rw [flattenChildren_missing ts ⟨s, hs2, hnone⟩]
end

/-- C6: If any node visited by the Flattener lacks the `breadcrumbs`
key, the run fails with the missing-breadcrumbs (`KeyError`) error during
the flatten step — no default path is substituted — and the whole run
fails with no worker dispatched. -/
theorem missing_breadcrumbs_aborts (worker : WorkItem → Bool) (data : List Topic)
    (topic_range : List Char) (group_index group_count : Nat)
    (hv : validateStructure data = true)
    (hmiss : ∃ s ∈ nodesOfList data, s.breadcrumbs = none) :
    flattenChildren data = .error .keyErrorBreadcrumbs
    ∧ mainPipeline data topic_range group_index group_count = .error .keyErrorBreadcrumbs
    ∧ runMain worker data topic_range group_index group_count =
        .fail .keyErrorBreadcrumbs [] := by
  have hf := flattenChildren_missing data hmiss
  refine ⟨hf, ?_, ?_⟩
  · simp [mainPipeline, hv, hf]
  · simp [runMain, mainPipeline, hv, hf]

/-- A schema-valid document whose only node has no `breadcrumbs` key;
used by the C6 witness. -/
def missingDoc : List Topic :=
  [.mk "a".toList "u".toList none []]

/-- Witness for C6 at `missingDoc`. -/
theorem missing_breadcrumbs_aborts_witness :
    validateStructure missingDoc = true
    ∧ flattenChildren missingDoc = .error .keyErrorBreadcrumbs
    ∧ mainPipeline missingDoc "*".toList 0 1 = .error .keyErrorBreadcrumbs
    ∧ runMain (fun _ => true) missingDoc "*".toList 0 1 = .fail .keyErrorBreadcrumbs [] :=
  ⟨by decide,
   (missing_breadcrumbs_aborts (fun _ => true) missingDoc "*".toList 0 1
     (by decide) (by decide)).1,
   (missing_breadcrumbs_aborts (fun _ => true) missingDoc "*".toList 0 1
     (by decide) (by decide)).2.1,
   (missing_breadcrumbs_aborts (fun _ => true) missingDoc "*".toList 0 1
     (by decide) (by decide)).2.2⟩

/-! ### `topic_range` is parsed and logged but never applied (claims C7, C10) -/

/-- Spot checks of the `int()` model against the reviewer-relevant
boundary: PEP 515 underscore grouping, Unicode decimal digits and
`int()` whitespace are accepted (so `"1_0-2"` is a well-formed range),
misplaced underscores and the malformed examples named by the claim
are rejected. -/
theorem parseIntPy_examples :
    parseIntPy "1_0".toList = some 10
    ∧ parseIntPy "٣".toList = some 3
    ∧ parseIntPy "١٢".toList = some 12
    ∧ parseIntPy "\x0b3\x0b".toList = some 3
    ∧ parseIntPy "𝟗".toList = some 9
    ∧ parseIntPy " -1_2 ".toList = some (-12)
    ∧ parseIntPy "1__0".toList = none
    ∧ parseIntPy "_1".toList = none
    ∧ parseIntPy "1_".toList = none
    ∧ rangeWellFormed "1_0-2".toList = true
    ∧ rangeWellFormed "١-٢".toList = true
    ∧ rangeWellFormed "3".toList = false
    ∧ rangeWellFormed "a-b".toList = false
    ∧ rangeWellFormed "1-2-3".toList = false := by
  refine ⟨rfl, rfl, rfl, rfl, rfl, rfl, rfl, rfl, rfl, ?_, ?_, ?_, ?_, ?_⟩ <;> decide

theorem parseTopicRange_error_shape (r : List Char) (e : Err) :
    parseTopicRange r = .error e → e = .valueError := by
  intro h2
  rw [parseTopicRange] at h2
  by_cases h : r = "*".toList
  · rw [if_pos h] at h2
    cases h2
  · rw [if_neg h] at h2
    split at h2
    · cases h2
    · cases h2
      rfl

/-- C7: The `topic_range` filter is a no-op — two runs identical except
for their well-formed `topic_range` value select the same batch and
dispatch the same WorkItems with the same outcome. -/
theorem topic_range_noop (worker : WorkItem → Bool) (data : List Topic)
    (r1 r2 : List Char) (group_index group_count : Nat)
    (h1 : rangeWellFormed r1 = true) (h2 : rangeWellFormed r2 = true) :
    mainPipeline data r1 group_index group_count = mainPipeline data r2 group_index group_count
    ∧ runMain worker data r1 group_index group_count =
        runMain worker data r2 group_index group_count := by
  obtain ⟨v1, hv1⟩ : ∃ v, parseTopicRange r1 = .ok v := by
    cases hp : parseTopicRange r1 with
    | ok v => exact ⟨v, rfl⟩
    | error e => simp [rangeWellFormed, hp] at h1
  obtain ⟨v2, hv2⟩ : ∃ v, parseTopicRange r2 = .ok v := by
    cases hp : parseTopicRange r2 with
    | ok v => exact ⟨v, rfl⟩
    | error e => simp [rangeWellFormed, hp] at h2
  have hpipe : mainPipeline data r1 group_index group_count =
      mainPipeline data r2 group_index group_count := by
    simp only [mainPipeline, hv1, hv2]
  exact ⟨hpipe, by rw [runMain, runMain, hpipe]⟩

/-- Witness for C7 at `sampleDoc`, `r1 = "*"`, `r2 = "3-7"`. -/
theorem topic_range_noop_witness :
    rangeWellFormed "*".toList = true
    ∧ rangeWellFormed "3-7".toList = true
    ∧ mainPipeline sampleDoc "*".toList 0 2 = mainPipeline sampleDoc "3-7".toList 0 2
    ∧ runMain (fun _ => true) sampleDoc "*".toList 0 2 =
        runMain (fun _ => true) sampleDoc "3-7".toList 0 2 :=
  ⟨by decide, by decide,
   (topic_range_noop (fun _ => true) sampleDoc "*".toList "3-7".toList 0 2
     (by decide) (by decide)).1,
   (topic_range_noop (fun _ => true) sampleDoc "*".toList "3-7".toList 0 2
     (by decide) (by decide)).2⟩

/-! ### Worker failure aborts the dispatch (claim C8) -/

theorem dispatchBatch_stops (worker : WorkItem → Bool) (bad : WorkItem)
    (post : List WorkItem) (hbad : worker bad = false) :
    ∀ pre : List WorkItem, (∀ w ∈ pre, worker w = true) →
      dispatchBatch worker (pre ++ bad :: post) = (pre, false)
  | [], _ => by simp [dispatchBatch, hbad]
  | w :: pre, hpre => by
    have hw : worker w = true := hpre w (List.mem_cons_self _ _)
    have hrec := dispatchBatch_stops worker bad post hbad pre
      (fun x hx => hpre x (List.mem_cons_of_mem _ hx))
    simp [dispatchBatch, hw, hrec]

/-- C8: A worker exiting non-zero aborts the dispatch at once: no later
WorkItem is processed, the items completed before the failure stay
completed (no rollback), and the run ends in failure; likewise a
schema-validation failure ends the run in failure before any work. -/
theorem worker_failure_aborts (worker : WorkItem → Bool) (data data2 : List Topic)
    (topic_range : List Char) (group_index group_count : Nat)
    (pre post : List WorkItem) (bad : WorkItem)
    (hpre : ∀ w ∈ pre, worker w = true) (hbad : worker bad = false)
    (hbatch : mainPipeline data topic_range group_index group_count = .ok (pre ++ bad :: post))
    (hv2 : validateStructure data2 = false) :
    dispatchBatch worker (pre ++ bad :: post) = (pre, false)
    ∧ runMain worker data topic_range group_index group_count = .fail .workerFailure pre
    ∧ runMain worker data2 topic_range group_index group_count = .fail .schemaError [] := by
  have hd := dispatchBatch_stops worker bad post hbad pre hpre
  refine ⟨hd, ?_, ?_⟩
  · simp only [runMain, hbatch, hd]
  · simp [runMain, mainPipeline, hv2]

/-- A one-node document used by the C8 and C10 witnesses. -/
def singleDoc : List Topic :=
  [.mk "A".toList "u1".toList (some ["products".toList, "A".toList]) []]

/-- The one WorkItem of `singleDoc`. -/
def w0 : WorkItem := { url := "u1".toList, path := "products/A".toList }

theorem sortTopics_singleton (w : WorkItem) : sortTopics [w] = [w] := by
  rw [sortTopics]
  simp [List.mergeSort]

theorem singleDoc_pipeline : mainPipeline singleDoc "*".toList 0 1 = .ok [w0] := by
  have hflat : flattenChildren singleDoc = .ok [w0] := rfl
  have hrange : parseTopicRange "*".toList = .ok none := rfl
  have hsort : sortTopics [w0] = [w0] := sortTopics_singleton w0
  have hvs : validateStructure singleDoc = true := rfl
  simp only [mainPipeline, hflat, hrange, hsort, hvs, eq_self_iff_true, if_true]
  rfl

/-- Witness for C8 at `singleDoc` with an always-failing worker, plus an
invalid (empty) document for the schema-failure conjunct. -/
theorem worker_failure_aborts_witness :
    dispatchBatch (fun _ => false) ([] ++ w0 :: []) = ([], false)
    ∧ runMain (fun _ => false) singleDoc "*".toList 0 1 = .fail .workerFailure []
    ∧ runMain (fun _ => false) [] "*".toList 0 1 = .fail .schemaError [] :=
  worker_failure_aborts (fun _ => false) singleDoc [] "*".toList 0 1 [] [] w0
    (fun w hw => absurd hw (List.not_mem_nil w)) rfl singleDoc_pipeline (by decide)

/-- C10: A `topic_range` that is neither `"*"` nor exactly two
dash-separated integer literals aborts the run with a `ValueError` after
flattening succeeds and before any batch is selected or worker
dispatched; `"3"`, `"a-b"` and `"1-2-3"` are all malformed. -/
theorem malformed_topic_range_aborts (worker : WorkItem → Bool) (data : List Topic)
    (topic_range : List Char) (group_index group_count : Nat) (l : List WorkItem)
    (hv : validateStructure data = true)
    (hf : flattenChildren data = .ok l)
    (hr : rangeWellFormed topic_range = false) :
    mainPipeline data topic_range group_index group_count = .error .valueError
    ∧ runMain worker data topic_range group_index group_count = .fail .valueError []
    ∧ rangeWellFormed "3".toList = false
    ∧ rangeWellFormed "a-b".toList = false
    ∧ rangeWellFormed "1-2-3".toList = false := by
  obtain ⟨e, hpe⟩ : ∃ e, parseTopicRange topic_range = .error e := by
    cases hp : parseTopicRange topic_range with
    | ok v => simp [rangeWellFormed, hp] at hr
    | error e => exact ⟨e, rfl⟩
  have he : e = .valueError := parseTopicRange_error_shape _ _ hpe
  subst he
  refine ⟨?_, ?_, by decide, by decide, by decide⟩
  · simp [mainPipeline, hv, hf, hpe]
  · simp [runMain, mainPipeline, hv, hf, hpe]

/-- Witness for C10 at `singleDoc` with `topic_range = "1-2-3"`. -/
theorem malformed_topic_range_aborts_witness :
    mainPipeline singleDoc "1-2-3".toList 0 1 = .error .valueError
    ∧ runMain (fun _ => true) singleDoc "1-2-3".toList 0 1 = .fail .valueError []
    ∧ rangeWellFormed "3".toList = false
    ∧ rangeWellFormed "a-b".toList = false
    ∧ rangeWellFormed "1-2-3".toList = false :=
  malformed_topic_range_aborts (fun _ => true) singleDoc "1-2-3".toList 0 1 [w0]
    (by decide) rfl (by decide)

/-! ### Schema strictness for `breadcrumbs` (claim C9) -/

/-- A node whose `breadcrumbs` field is present but violates the schema:
an empty array, or an array containing an empty string
(`minItems: 1` / per-item `minLength: 1`, `batch.py` lines 34-39). -/
def badBreadcrumbs (t : Topic) : Bool :=
  match t.breadcrumbs with
  | none => false
  | some bcs => bcs.isEmpty || bcs.any (fun b => b.isEmpty)

mutual
theorem validTopic_bad :
    ∀ t : Topic, (∃ s ∈ nodesOf t, badBreadcrumbs s = true) → validTopic t = false
  | .mk n u bc subs, h => by
    obtain ⟨s, hs, hbad⟩ := h
    rw [nodesOf] at hs
    rcases List.mem_cons.mp hs with rfl | hs2
    · rw [badBreadcrumbs, Topic.breadcrumbs] at hbad
      cases bc with
      | none => cases hbad
      | some bcs =>
        rw [validTopic.eq_def]
        rcases (Bool.or_eq_true _ _).mp hbad with hemp | hany
        · simp [hemp]
        · have hall : bcs.all (fun b => !b.isEmpty) = false := by
            obtain ⟨b, hb, hbe⟩ := List.any_eq_true.mp hany
            rw [List.all_eq_false]
            exact ⟨b, hb, by simp [hbe]⟩
          simp [hall]
    · have hrec := validTopicList_bad subs ⟨s, hs2, hbad⟩
      rw [validTopic.eq_def]
      simp [hrec]

theorem validTopicList_bad :
    ∀ ts : List Topic, (∃ s ∈ nodesOfList ts, badBreadcrumbs s = true) →
      validTopicList ts = false
  | [], h => by
    obtain ⟨s, hs, _⟩ := h
    rw [nodesOfList] at hs
    cases hs
  | t :: ts, h => by
    obtain ⟨s, hs, hbad⟩ := h
    rw [nodesOfList] at hs
    rcases List.mem_append.mp hs with hs1 | hs2
    · have hrec := validTopic_bad t ⟨s, hs1, hbad⟩
      rw [validTopicList]
      simp [hrec]
    · have hrec := validTopicList_bad ts ⟨s, hs2, hbad⟩
      rw [validTopicList]
      simp [hrec]
end

/-- C9: If any node's `breadcrumbs` field is present but is an empty
array or contains an empty string, schema validation fails and the run
aborts before any flattening or dispatch. -/
theorem schema_rejects_empty_breadcrumbs (worker : WorkItem → Bool) (data : List Topic)
    (topic_range : List Char) (group_index group_count : Nat)
    (hbad : ∃ s ∈ nodesOfList data, badBreadcrumbs s = true) :
    validateStructure data = false
    ∧ mainPipeline data topic_range group_index group_count = .error .schemaError
    ∧ runMain worker data topic_range group_index group_count = .fail .schemaError [] := by
  have hv : validateStructure data = false := by
    rw [validateStructure, validTopicList_bad data hbad]
    simp
  refine ⟨hv, ?_, ?_⟩
  · simp [mainPipeline, hv]
  · simp [runMain, mainPipeline, hv]

/-- A document whose only node has `breadcrumbs: []`. -/
def emptyArrayDoc : List Topic :=
  [.mk "a".toList "u".toList (some []) []]

/-- A document whose only node has `breadcrumbs: [""]`. -/
def emptyStringDoc : List Topic :=
  [.mk "a".toList "u".toList (some [[]]) []]

/-- Witness for C9 at a `breadcrumbs: []` node and at a
`breadcrumbs: [""]` node. -/
theorem schema_rejects_empty_breadcrumbs_witness :
    validateStructure emptyArrayDoc = false
    ∧ runMain (fun _ => true) emptyArrayDoc "*".toList 0 1 = .fail .schemaError []
    ∧ validateStructure emptyStringDoc = false
    ∧ runMain (fun _ => true) emptyStringDoc "*".toList 0 1 = .fail .schemaError [] :=
  ⟨(schema_rejects_empty_breadcrumbs (fun _ => true) emptyArrayDoc "*".toList 0 1
      (by decide)).1,
   (schema_rejects_empty_breadcrumbs (fun _ => true) emptyArrayDoc "*".toList 0 1
      (by decide)).2.2,
   (schema_rejects_empty_breadcrumbs (fun _ => true) emptyStringDoc "*".toList 0 1
      (by decide)).1,
   (schema_rejects_empty_breadcrumbs (fun _ => true) emptyStringDoc "*".toList 0 1
      (by decide)).2.2⟩

/-! ### Breadcrumb path derivation and the sentinel round-trip (claim C4) -/

/-- The forward substitution of `batch.py` line 64 on one breadcrumb
component: `t.replace("/", "_slash_")`. -/
def escSlash (t : List Char) : List Char := pyReplace t "/".toList "_slash_".toList

/-- The reverse substitution named by the specification:
`c.replace("_slash_", "/")` on one component of the split path. -/
def unescSlash (s : List Char) : List Char := pyReplace s "_slash_".toList "/".toList

theorem slash_toList_eq : "/".toList = ['/'] := rfl

theorem sentinel_toList_eq : "_slash_".toList = ['_', 's', 'l', 'a', 's', 'h', '_'] := rfl

theorem pathOfBreadcrumbs_eq (bcs : List (List Char)) :
    pathOfBreadcrumbs bcs = List.intercalate ['/'] (bcs.map escSlash) := rfl

theorem pyReplaceAux_nomatch (pat rep : List Char) (c : Char) (t : List Char)
    (h : pat.isPrefixOf (c :: t) = false) :
    pyReplaceAux pat rep 0 (c :: t) = c :: pyReplaceAux pat rep 0 t := by
  rw [pyReplaceAux, h]
  simp

theorem escSlash_nil : escSlash [] = [] := rfl

theorem unescSlash_nil : unescSlash [] = [] := rfl

theorem escSlash_slash (t : List Char) :
    escSlash ('/' :: t) = "_slash_".toList ++ escSlash t := by
  simp [escSlash, pyReplace, pyReplaceAux, List.isPrefixOf, slash_toList_eq]

theorem escSlash_cons (c : Char) (t : List Char) (hc : c ≠ '/') :
    escSlash (c :: t) = c :: escSlash t := by
  have h : ("/".toList).isPrefixOf (c :: t) = false := by
    have hbe : ('/' == c) = false := beq_eq_false_iff_ne.mpr (fun he => hc he.symm)
    simp [slash_toList_eq, List.isPrefixOf, hbe]
  rw [escSlash, pyReplace, pyReplaceAux_nomatch _ _ _ _ h]
  rfl

theorem unescSlash_sentinel (t : List Char) :
    unescSlash ("_slash_".toList ++ t) = '/' :: unescSlash t := by
  simp [unescSlash, pyReplace, pyReplaceAux, List.isPrefixOf, sentinel_toList_eq]

theorem unescSlash_cons_nomatch (c : Char) (s : List Char)
    (h : ("_slash_".toList).isPrefixOf (c :: s) = false) :
    unescSlash (c :: s) = c :: unescSlash s := by
  rw [unescSlash, pyReplace, pyReplaceAux_nomatch _ _ _ _ h]
  rfl

theorem slash_not_mem_escSlash : ∀ b : List Char, '/' ∉ escSlash b
  | [] => by
    rw [escSlash_nil]
    exact List.not_mem_nil _
  | c :: t => by
    by_cases hc : c = '/'
    · subst hc
      rw [escSlash_slash]
      intro hmem
      rcases List.mem_append.mp hmem with h1 | h2
      · rw [sentinel_toList_eq] at h1
        exact absurd h1 (by decide)
      · exact slash_not_mem_escSlash t h2
    · rw [escSlash_cons c t hc]
      intro hmem
      rcases List.mem_cons.mp hmem with h1 | h2
      · exact hc h1.symm
      · exact slash_not_mem_escSlash t h2

theorem isPrefixOf_eq_true_iff : ∀ l1 l2 : List Char,
    l1.isPrefixOf l2 = true ↔ ∃ u, l2 = l1 ++ u
  | [], l2 => by simp [List.isPrefixOf]
  | a :: as, [] => by simp [List.isPrefixOf]
  | a :: as, b :: bs => by
    simp only [List.isPrefixOf, Bool.and_eq_true, beq_iff_eq, isPrefixOf_eq_true_iff as bs]
    constructor
    · rintro ⟨rfl, u, rfl⟩
      exact ⟨u, rfl⟩
    · rintro ⟨u, hu⟩
      injection hu with h1 h2
      exact ⟨h1.symm, u, h2⟩

theorem escSlash_cons_inv (b : List Char) (d : Char) (u : List Char)
    (hd : d ≠ '_') (h : escSlash b = d :: u) :
    ∃ b1, b = d :: b1 ∧ escSlash b1 = u ∧ d ≠ '/' := by
  match b with
  | [] =>
    rw [escSlash_nil] at h
    cases h
  | c :: b1 =>
    by_cases hc : c = '/'
    · subst hc
      rw [escSlash_slash, sentinel_toList_eq] at h
      simp only [List.cons_append] at h
      injection h with h1 _
      exact absurd h1.symm hd
    · rw [escSlash_cons _ _ hc] at h
      injection h with h1 h2
      refine ⟨b1, ?_, h2, ?_⟩
      · rw [← h1]
      · rw [← h1]
        exact hc

theorem escSlash_slash_h_inv (b u : List Char)
    (h : escSlash b = 's' :: 'l' :: 'a' :: 's' :: 'h' :: '_' :: u) :
    ∃ b5, b = 's' :: 'l' :: 'a' :: 's' :: 'h' :: b5 := by
  obtain ⟨b1, hb1, h1, _⟩ := escSlash_cons_inv b 's' _ (by decide) h
  obtain ⟨b2, hb2, h2, _⟩ := escSlash_cons_inv b1 'l' _ (by decide) h1
  obtain ⟨b3, hb3, h3, _⟩ := escSlash_cons_inv b2 'a' _ (by decide) h2
  obtain ⟨b4, hb4, h4, _⟩ := escSlash_cons_inv b3 's' _ (by decide) h3
  obtain ⟨b5, hb5, h5, _⟩ := escSlash_cons_inv b4 'h' _ (by decide) h4
  exact ⟨b5, by rw [hb1, hb2, hb3, hb4, hb5]⟩

theorem unescSlash_escSlash : ∀ b : List Char, ¬ ("_slash".toList <:+: b) →
    unescSlash (escSlash b) = b
  | [], _ => by rw [escSlash_nil, unescSlash_nil]
  | c :: t, hno => by
    have hno_t : ¬ ("_slash".toList <:+: t) := fun hi =>
      hno (hi.trans (List.suffix_cons c t).isInfix)
    by_cases hc : c = '/'
    · subst hc
      rw [escSlash_slash, unescSlash_sentinel, unescSlash_escSlash t hno_t]
    · rw [escSlash_cons _ _ hc]
      have hnm : ("_slash_".toList).isPrefixOf (c :: escSlash t) = false := by
        by_cases hcu : c = '_'
        · subst hcu
          cases hp : ("_slash_".toList).isPrefixOf ('_' :: escSlash t) with
          | false => rfl
          | true =>
            exfalso
            obtain ⟨u, hu⟩ := (isPrefixOf_eq_true_iff _ _).mp hp
            rw [sentinel_toList_eq] at hu
            simp only [List.cons_append, List.nil_append] at hu
            injection hu with _ hu2
            obtain ⟨b5, hb5⟩ := escSlash_slash_h_inv t u hu2
            apply hno
            refine ⟨[], b5, ?_⟩
            rw [hb5]
            rfl
        · have hbe : ('_' == c) = false := beq_eq_false_iff_ne.mpr (fun he => hcu he.symm)
          rw [sentinel_toList_eq]
          simp [List.isPrefixOf, hbe]
      rw [unescSlash_cons_nomatch _ _ hnm, unescSlash_escSlash t hno_t]

/-- C4 counterexample: the round-trip asserted by the claim fails for a
breadcrumb component that already contains the sentinel (`"a_slash_b"`)
and for one where `"_slash"` is followed by a literal `/` (`"_slash/"`):
splitting the derived path on `/` and replacing `"_slash_"` back with
`/` does not recover the original component. -/
theorem breadcrumb_roundtrip_cex :
    ((pathOfBreadcrumbs ["a_slash_b".toList]).splitOn '/').map unescSlash
      ≠ ["a_slash_b".toList]
    ∧ ((pathOfBreadcrumbs ["_slash/".toList]).splitOn '/').map unescSlash
      ≠ ["_slash/".toList] :=
  ⟨by decide, by decide⟩

/-- C4 (amended): for every node with a non-empty breadcrumb list,
`relative_path` is the `/`-join of the components with each literal `/`
replaced by `_slash_`; no `/` of the path originates from inside a
component; splitting the path on `/` yields exactly one component per
breadcrumb; and — provided no component contains the 6-character string
`"_slash"` — replacing `_slash_` back with `/` in each split component
recovers the original breadcrumb strings. -/
theorem breadcrumb_path_roundtrip (bcs : List (List Char)) (hne : bcs ≠ [])
    (hsent : ∀ b ∈ bcs, ¬ ("_slash".toList <:+: b)) :
    (∀ b ∈ bcs, '/' ∉ escSlash b)
    ∧ (pathOfBreadcrumbs bcs).splitOn '/' = bcs.map escSlash
    ∧ ((pathOfBreadcrumbs bcs).splitOn '/').length = bcs.length
    ∧ ((pathOfBreadcrumbs bcs).splitOn '/').map unescSlash = bcs := by
  have hsplit : (pathOfBreadcrumbs bcs).splitOn '/' = bcs.map escSlash := by
    rw [pathOfBreadcrumbs_eq]
    refine List.splitOn_intercalate _ '/' ?_ ?_
    · intro l hl
      obtain ⟨b, hb, rfl⟩ := List.mem_map.mp hl
      exact slash_not_mem_escSlash b
    · simpa using hne
  refine ⟨fun b _ => slash_not_mem_escSlash b, hsplit, ?_, ?_⟩
  · rw [hsplit, List.length_map]
  · rw [hsplit, List.map_map]
    have hcongr : bcs.map (unescSlash ∘ escSlash) = bcs.map id :=
      List.map_congr_left (fun b hb => unescSlash_escSlash b (hsent b hb))
    rw [hcongr, List.map_id]

/-- Witness for the amended C4 at `bcs = ["products", "A"]` (the
breadcrumbs of the spec §8 example root). -/
theorem breadcrumb_path_roundtrip_witness :
    (pathOfBreadcrumbs ["products".toList, "A".toList]).splitOn '/' =
      ["products".toList, "A".toList].map escSlash
    ∧ ((pathOfBreadcrumbs ["products".toList, "A".toList]).splitOn '/').length = 2
    ∧ ((pathOfBreadcrumbs ["products".toList, "A".toList]).splitOn '/').map unescSlash =
        ["products".toList, "A".toList] :=
  ⟨(breadcrumb_path_roundtrip ["products".toList, "A".toList] (by decide) (by decide)).2.1,
   (breadcrumb_path_roundtrip ["products".toList, "A".toList] (by decide) (by decide)).2.2.1,
   (breadcrumb_path_roundtrip ["products".toList, "A".toList] (by decide) (by decide)).2.2.2⟩
